import Mathlib

/-!
Verification of `check_coverage_json.py`, a CI gate that reads an
Istanbul/NYC coverage report (`coverage/coverage-final.json`) and checks that
every file has 100% statement, branch and function coverage.

The script is embedded shallowly:
* JSON maps such as `coverage['s']` (statement-id → hit count) become
  association lists `List (String × Int)` in iteration order; hit counts are
  Python ints, embedded as `Int`.
* The per-file loop body becomes pure functions (`s_total`, `s_covered`,
  `bAccum`, `fileDetails`, ...), each mirroring one group of source lines.
* `sys.exit(1)` / falling off the end become the numeric exit status in the
  result of `check_coverage`.
* The `try/except FileNotFoundError` wrapper and the unhandled
  `json.JSONDecodeError` / `KeyError` paths are modelled by `run` over
  `ReportState`, with `Except.error` standing for an uncaught Python
  exception (which terminates the interpreter with a non-zero status).
* Python's `file_path.split('backend/')[-1]` is embedded at the
  character-list level by `splitFuel` / `splitOnBackend`, which performs the
  same left-to-right scan over non-overlapping occurrences of the separator
  as CPython's `str.split`, and `getLastD` takes the `[-1]` element.
-/

namespace CheckCoverageJson

/-- A JSON object mapping unit ids to hit counts, in iteration order. -/
abbrev CountMap := List (String × Int)

/-- One value of the top-level report object: the four metric maps `s`, `b`,
`f`, `l` of an Istanbul coverage record (all keys present). -/
structure FileCov where
  s : CountMap
  b : List (String × List Int)
  f : CountMap
  l : CountMap
deriving DecidableEq, Repr

/-- `sum(1 for v in m.values() if v > 0)` — number of covered units. -/
def covered_count (m : CountMap) : Nat :=
  (m.filter fun v => decide (0 < v.2)).length

/-- `s_total = len(coverage['s'])` (line 23). -/
def s_total (cov : FileCov) : Nat := cov.s.length

/-- `s_covered = sum(1 for v in coverage['s'].values() if v > 0)` (line 24). -/
def s_covered (cov : FileCov) : Nat := covered_count cov.s

/-- One iteration of the branch loop (lines 35-37): add the arm count of one
branch group to `b_total` and its covered-arm count to `b_covered`. -/
def bAccum (acc : Nat × Nat) (g : String × List Int) : Nat × Nat :=
  (acc.1 + g.2.length, acc.2 + (g.2.filter fun c => decide (0 < c)).length)

/-- `b_total` after the loop over `coverage['b'].values()` (lines 33-37). -/
def b_total (cov : FileCov) : Nat := (cov.b.foldl bAccum (0, 0)).1

/-- `b_covered` after the loop over `coverage['b'].values()` (lines 33-37). -/
def b_covered (cov : FileCov) : Nat := (cov.b.foldl bAccum (0, 0)).2

/-- `f_total = len(coverage['f'])` (line 44). -/
def f_total (cov : FileCov) : Nat := cov.f.length

/-- `f_covered = sum(1 for v in coverage['f'].values() if v > 0)` (line 45). -/
def f_covered (cov : FileCov) : Nat := covered_count cov.f

/-- Condition of line 25: `s_total > 0 and s_covered < s_total`. -/
def sDeficient (cov : FileCov) : Bool :=
  decide (0 < s_total cov) && decide (s_covered cov < s_total cov)

/-- Condition of line 39: `b_total > 0 and b_covered < b_total`. -/
def bDeficient (cov : FileCov) : Bool :=
  decide (0 < b_total cov) && decide (b_covered cov < b_total cov)

/-- Condition of line 46: `f_total > 0 and f_covered < f_total`. -/
def fDeficient (cov : FileCov) : Bool :=
  decide (0 < f_total cov) && decide (f_covered cov < f_total cov)

/-- `f"Statements: {s_covered}/{s_total}"` (line 27). -/
def sLabel (cov : FileCov) : String :=
  "Statements: " ++ toString (s_covered cov) ++ "/" ++ toString (s_total cov)

/-- `f"Branches: {b_covered}/{b_total}"` (line 41). -/
def bLabel (cov : FileCov) : String :=
  "Branches: " ++ toString (b_covered cov) ++ "/" ++ toString (b_total cov)

/-- `f"Functions: {f_covered}/{f_total}"` (line 48). -/
def fLabel (cov : FileCov) : String :=
  "Functions: " ++ toString (f_covered cov) ++ "/" ++ toString (f_total cov)

/-- The `details` list built by the three conditional `append`s
(lines 20, 27, 41, 48), in source order. -/
def fileDetails (cov : FileCov) : List String :=
  let details : List String := []
  let details := if sDeficient cov then details ++ [sLabel cov] else details
  let details := if bDeficient cov then details ++ [bLabel cov] else details
  if fDeficient cov then details ++ [fLabel cov] else details

/-- The `is_perfect` flag (line 19), which is cleared exactly when one of the
three category conditions fires (lines 26, 40, 47). -/
def is_perfect (cov : FileCov) : Bool :=
  !sDeficient cov && !bDeficient cov && !fDeficient cov

/-- The separator `'backend/'` of line 52 as a character list. -/
def backendSep : List Char := ['b', 'a', 'c', 'k', 'e', 'n', 'd', '/']

/-- CPython `str.split(sep)` for `sep = 'backend/'`: scan left to right,
cutting at each non-overlapping occurrence of the separator.  Structural
recursion on an explicit fuel argument (the fuel never runs out when it
starts at the length of the list, see `splitFuel_congr`). -/
def splitFuel : Nat → List Char → List (List Char)
  | _, [] => [[]]
  | 0, l => [l]
  | fuel + 1, c :: rest =>
    if backendSep.isPrefixOf (c :: rest) then
      [] :: splitFuel fuel (rest.drop 7)
    else
      match splitFuel fuel rest with
      | [] => [[c]]
      | chunk :: more => (c :: chunk) :: more

/-- `file_path.split('backend/')`. -/
def splitOnBackend (l : List Char) : List (List Char) := splitFuel l.length l

/-- `short_path = file_path.split('backend/')[-1]` (line 52); Python's
`split` always returns a non-empty list, so `[-1]` is its last element. -/
def short_path (path : String) : String :=
  String.mk ((splitOnBackend path.data).getLastD [])

/-- `f"{short_path}: {', '.join(details)}"` (line 53). -/
def fileLine (path : String) (cov : FileCov) : String :=
  short_path path ++ ": " ++ String.intercalate ", " (fileDetails cov)

/-- Effect of one loop iteration on `failed_files` (lines 50-53): append the
file's line when it is not perfect. -/
def failedStep (acc : List String) (entry : String × FileCov) : List String :=
  if is_perfect entry.2 then acc else acc ++ [fileLine entry.1 entry.2]

/-- `failed_files` after the loop over `data.items()` (lines 13-53). -/
def failed_files (data : List (String × FileCov)) : List String :=
  data.foldl failedStep []

/-- Lines 55-61: the printed lines paired with the process exit status
(`sys.exit(1)` in the deficient branch, the default status 0 otherwise). -/
def check_coverage (data : List (String × FileCov)) : List String × Nat :=
  if failed_files data = [] then (["All files have 100% coverage!"], 0)
  else ("Files with < 100% coverage:" :: failed_files data, 1)

/-- A raw per-file record as parsed from JSON: each of the four keys may be
absent.  Accessing an absent key (`coverage['s']`, ...) raises `KeyError`. -/
structure FileRecord where
  s : Option CountMap
  b : Option (List (String × List Int))
  f : Option CountMap
  l : Option CountMap
deriving DecidableEq, Repr

/-- Python subscript `coverage[key]`: the value, or an uncaught `KeyError`. -/
def getKey {α : Type} (key : String) : Option α → Except String α
  | some v => Except.ok v
  | none => Except.error ("KeyError: " ++ key)

/-- Evaluate the key accesses of one loop iteration in source order:
`coverage['s']` (line 23), `coverage['b']` (line 35), `coverage['f']`
(line 44).  The `l` key is never accessed by the script. -/
def evalRecord (r : FileRecord) : Except String FileCov := do
  let sv ← getKey "s" r.s
  let bv ← getKey "b" r.b
  let fv ← getKey "f" r.f
  Except.ok ⟨sv, bv, fv, r.l.getD []⟩

/-- The loop over `data.items()` at the raw-record level: the first record
with a missing key aborts the whole run with its `KeyError`. -/
def processFiles : List (String × FileRecord) → Except String (List (String × FileCov))
  | [] => Except.ok []
  | p :: rest => do
    let cov ← evalRecord p.2
    let covs ← processFiles rest
    Except.ok ((p.1, cov) :: covs)

/-- State of `coverage/coverage-final.json` when the script starts. -/
inductive ReportState where
  | missing
  | invalidJson (msg : String)
  | parsed (data : List (String × FileRecord))

/-- The whole of `check_coverage()` (lines 5-61).  `Except.ok` carries the
printed lines and the exit status; `Except.error` is an uncaught Python
exception, which terminates the interpreter with a non-zero status.  Only
`FileNotFoundError` is caught (lines 9-11). -/
def run : ReportState → Except String (List String × Nat)
  | ReportState.missing => Except.ok (["Coverage file not found."], 0)
  | ReportState.invalidJson msg => Except.error ("json.decoder.JSONDecodeError: " ++ msg)
  | ReportState.parsed data => do
    let covs ← processFiles data
    Except.ok (check_coverage covs)

/-- Replace the (unused) `l` metric by the empty map; two records agree on
everything except `l` iff `eraseL` maps them to the same record. -/
def eraseL (cov : FileCov) : FileCov := { cov with l := [] }

/-- Does `backendSep` occur as a contiguous sublist? -/
def occursBackend : List Char → Bool
  | [] => false
  | c :: rest => backendSep.isPrefixOf (c :: rest) || occursBackend rest

/-- Well-formed record: all hit counts are non-negative integers (spec §3). -/
abbrev wfCov (cov : FileCov) : Prop :=
  (∀ u ∈ cov.s, 0 ≤ u.2) ∧ (∀ g ∈ cov.b, ∀ c ∈ g.2, 0 ≤ c) ∧
  (∀ u ∈ cov.f, 0 ≤ u.2) ∧ (∀ u ∈ cov.l, 0 ≤ u.2)

/-- Some statement, branch-arm or function hit count equals 0. -/
abbrev hasZero (cov : FileCov) : Prop :=
  (∃ u ∈ cov.s, u.2 = 0) ∨ (∃ g ∈ cov.b, ∃ c ∈ g.2, c = 0) ∨ (∃ u ∈ cov.f, u.2 = 0)

/-- Every statement, branch-arm and function hit count is strictly positive
(vacuously true for empty categories). -/
abbrev allPositive (cov : FileCov) : Prop :=
  (∀ u ∈ cov.s, 0 < u.2) ∧ (∀ g ∈ cov.b, ∀ c ∈ g.2, 0 < c) ∧ (∀ u ∈ cov.f, 0 < u.2)

/-- A raw record lacking one of the keys the script accesses. -/
abbrev badRecord (r : FileRecord) : Prop :=
  r.s = none ∨ r.b = none ∨ r.f = none

/-- Fixture: a record with all four metric maps empty. -/
def emptyCov : FileCov := ⟨[], [], [], []⟩

/-- Fixture: a record deficient in all three considered categories. -/
def allZeroCov : FileCov := ⟨[("0", 0)], [("0", [0])], [("0", 0)], []⟩

/-! ### Helper lemmas about the embedded functions -/

theorem covered_count_le (m : CountMap) : covered_count m ≤ m.length :=
  List.length_filter_le _ m

theorem length_filter_lt {α : Type} (p : α → Bool) (l : List α) (x : α)
    (hx : x ∈ l) (hpx : p x = false) : (l.filter p).length < l.length := by
  induction l with
  | nil => cases hx
  | cons a as ih =>
    rcases List.mem_cons.mp hx with rfl | hx'
    · simp only [List.filter_cons, hpx, Bool.false_eq_true, if_false, List.length_cons]
      exact Nat.lt_succ_of_le (List.length_filter_le _ _)
    · cases hpa : p a
      · simp only [List.filter_cons, hpa, Bool.false_eq_true, if_false, List.length_cons]
        exact Nat.lt_succ_of_lt (ih hx')
      · simp only [List.filter_cons, hpa, if_true, List.length_cons]
        exact Nat.succ_lt_succ (ih hx')

theorem length_filter_eq {α : Type} (p : α → Bool) (l : List α)
    (h : ∀ a ∈ l, p a = true) : (l.filter p).length = l.length := by
  rw [List.filter_eq_self.mpr h]

theorem foldl_bAccum (gs : List (String × List Int)) :
    ∀ a c : Nat, gs.foldl bAccum (a, c) =
      (a + (gs.map fun g => g.2.length).sum,
       c + (gs.map fun g => (g.2.filter fun x => decide (0 < x)).length).sum) := by
  induction gs with
  | nil => simp
  | cons g gs ih =>
    intro a c
    simp only [List.foldl_cons, bAccum, ih, List.map_cons, List.sum_cons]
    exact Prod.ext (by omega) (by omega)

theorem b_total_eq (cov : FileCov) :
    b_total cov = ((cov.b.map Prod.snd).flatten).length := by
  unfold b_total
  rw [foldl_bAccum]
  simp only [List.length_flatten, List.map_map, Nat.zero_add]
  rfl

theorem flatten_filter_length (p : Int → Bool) (gs : List (String × List Int)) :
    (((gs.map Prod.snd).flatten).filter p).length =
      (gs.map fun g => (g.2.filter p).length).sum := by
  induction gs with
  | nil => simp
  | cons g gs ih => simp [List.filter_append, ih]; rfl

theorem b_covered_eq (cov : FileCov) :
    b_covered cov = (((cov.b.map Prod.snd).flatten).filter fun c => decide (0 < c)).length := by
  unfold b_covered
  rw [foldl_bAccum, flatten_filter_length]
  simp

theorem details_eq (cov : FileCov) :
    fileDetails cov =
      (if sDeficient cov then [sLabel cov] else []) ++
      (if bDeficient cov then [bLabel cov] else []) ++
      (if fDeficient cov then [fLabel cov] else []) := by
  unfold fileDetails
  cases sDeficient cov <;> cases bDeficient cov <;> cases fDeficient cov <;> simp

theorem foldl_failedStep (data : List (String × FileCov)) :
    ∀ acc : List String, data.foldl failedStep acc =
      acc ++ (data.filter fun p => !is_perfect p.2).map fun p => fileLine p.1 p.2 := by
  induction data with
  | nil => simp
  | cons a as ih =>
    intro acc
    cases hp : is_perfect a.2
    · simp only [List.foldl_cons, failedStep, hp, Bool.false_eq_true, if_false, ih,
        List.filter_cons, Bool.not_false, if_true, List.map_cons, List.append_assoc,
        List.singleton_append]
    · simp only [List.foldl_cons, failedStep, hp, if_true, ih, List.filter_cons,
        Bool.not_true, Bool.false_eq_true, if_false, List.map_cons]

theorem failed_files_eq (data : List (String × FileCov)) :
    failed_files data =
      (data.filter fun p => !is_perfect p.2).map fun p => fileLine p.1 p.2 := by
  simpa using foldl_failedStep data []

theorem hasZero_not_perfect (cov : FileCov) (h : hasZero cov) :
    is_perfect cov = false := by
  rcases h with ⟨u, hu, hu0⟩ | ⟨g, hg, c, hc, hc0⟩ | ⟨u, hu, hu0⟩
  · have h1 : 0 < s_total cov := List.length_pos.mpr (List.ne_nil_of_mem hu)
    have h2 : s_covered cov < s_total cov :=
      length_filter_lt _ cov.s u hu (by simp [hu0])
    simp [is_perfect, sDeficient, h1, h2]
  · have hmem : c ∈ (cov.b.map Prod.snd).flatten :=
      List.mem_flatten.mpr ⟨g.2, List.mem_map.mpr ⟨g, hg, rfl⟩, hc⟩
    have h1 : 0 < b_total cov := by
      rw [b_total_eq]
      exact List.length_pos.mpr (List.ne_nil_of_mem hmem)
    have h2 : b_covered cov < b_total cov := by
      rw [b_total_eq, b_covered_eq]
      exact length_filter_lt _ _ c hmem (by simp [hc0])
    simp [is_perfect, bDeficient, h1, h2]
  · have h1 : 0 < f_total cov := List.length_pos.mpr (List.ne_nil_of_mem hu)
    have h2 : f_covered cov < f_total cov :=
      length_filter_lt _ cov.f u hu (by simp [hu0])
    simp [is_perfect, fDeficient, h1, h2]

theorem allPositive_perfect (cov : FileCov) (h : allPositive cov) :
    is_perfect cov = true := by
  obtain ⟨hs, hb, hf⟩ := h
  have e1 : s_covered cov = s_total cov :=
    length_filter_eq _ cov.s fun a ha => by simpa using hs a ha
  have e2 : b_covered cov = b_total cov := by
    rw [b_total_eq, b_covered_eq]
    refine length_filter_eq _ _ fun c hcmem => ?_
    obtain ⟨l2, hl2, hc⟩ := List.mem_flatten.mp hcmem
    obtain ⟨g, hg, rfl⟩ := List.mem_map.mp hl2
    simpa using hb g hg c hc
  have e3 : f_covered cov = f_total cov :=
    length_filter_eq _ cov.f fun a ha => by simpa using hf a ha
  simp [is_perfect, sDeficient, bDeficient, fDeficient, e1, e2, e3]

/-! ### Lemmas about the embedded `str.split('backend/')` -/

theorem splitFuel_congr :
    ∀ (n m : Nat) (l : List Char), l.length ≤ n → l.length ≤ m →
      splitFuel n l = splitFuel m l := by
  intro n
  induction n with
  | zero =>
    intro m l hn _
    have hl : l = [] := List.eq_nil_of_length_eq_zero (Nat.le_zero.mp hn)
    subst hl
    cases m <;> simp [splitFuel]
  | succ n ih =>
    intro m l hn hm
    cases l with
    | nil => cases m <;> simp [splitFuel]
    | cons c rest =>
      cases m with
      | zero => simp at hm
      | succ m' =>
        simp only [List.length_cons, Nat.succ_le_succ_iff] at hn hm
        simp only [splitFuel]
        cases hps : backendSep.isPrefixOf (c :: rest)
        · simp only [Bool.false_eq_true, if_false]
          rw [ih m' rest hn hm]
        · simp only [if_true]
          have hd : (rest.drop 7).length ≤ n :=
            Nat.le_trans (by simp [List.length_drop]) hn
          have hd' : (rest.drop 7).length ≤ m' :=
            Nat.le_trans (by simp [List.length_drop]) hm
          rw [ih m' (rest.drop 7) hd hd']

theorem splitFuel_ne_nil : ∀ (n : Nat) (l : List Char), splitFuel n l ≠ [] := by
  intro n
  induction n with
  | zero => intro l; cases l <;> simp [splitFuel]
  | succ n ih =>
    intro l
    cases l with
    | nil => simp [splitFuel]
    | cons c rest =>
      simp only [splitFuel]
      cases hps : backendSep.isPrefixOf (c :: rest)
      · simp only [Bool.false_eq_true, if_false]
        cases h : splitFuel n rest <;> simp
      · simp

theorem isPrefixOf_take :
    ∀ (s l : List Char), s.isPrefixOf l = true → l.take s.length = s := by
  intro s
  induction s with
  | nil => intro l _; simp
  | cons a as ih =>
    intro l h
    cases l with
    | nil => simp [List.isPrefixOf] at h
    | cons b bs =>
      simp only [List.isPrefixOf, Bool.and_eq_true, beq_iff_eq] at h
      simp only [List.length_cons, List.take_succ_cons]
      exact congrArg₂ List.cons h.1.symm (ih bs h.2)

theorem take_isPrefixOf :
    ∀ (s l : List Char), l.take s.length = s → s.isPrefixOf l = true := by
  intro s
  induction s with
  | nil => intro l _; simp [List.isPrefixOf]
  | cons a as ih =>
    intro l h
    cases l with
    | nil => simp at h
    | cons b bs =>
      simp only [List.length_cons, List.take_succ_cons, List.cons.injEq] at h
      simp only [List.isPrefixOf, Bool.and_eq_true, beq_iff_eq]
      exact ⟨h.1.symm, ih bs h.2⟩

theorem isPrefixOf_append_self :
    ∀ (s t : List Char), s.isPrefixOf (s ++ t) = true := by
  intro s
  induction s with
  | nil => intro t; simp [List.isPrefixOf]
  | cons a as ih => intro t; simp [List.isPrefixOf, ih]

theorem occurs_of_isPrefixOf (l : List Char)
    (h : backendSep.isPrefixOf l = true) : occursBackend l = true := by
  cases l with
  | nil => simp [backendSep, List.isPrefixOf] at h
  | cons c rest => simp [occursBackend, h]

theorem occursBackend_append_right :
    ∀ (p t : List Char), occursBackend t = true → occursBackend (p ++ t) = true := by
  intro p
  induction p with
  | nil => intro t h; simpa using h
  | cons c p' ih =>
    intro t h
    simp only [List.cons_append, occursBackend, Bool.or_eq_true]
    exact Or.inr (ih t h)

theorem occursBackend_sep (p t : List Char) :
    occursBackend (p ++ backendSep ++ t) = true := by
  rw [List.append_assoc]
  exact occursBackend_append_right p _
    (occurs_of_isPrefixOf _ (isPrefixOf_append_self backendSep t))

theorem splitFuel_no_occur :
    ∀ (n : Nat) (l : List Char), occursBackend l = false → splitFuel n l = [l] := by
  intro n
  induction n with
  | zero => intro l _; cases l <;> simp [splitFuel]
  | succ n ih =>
    intro l h
    cases l with
    | nil => simp [splitFuel]
    | cons c rest =>
      simp only [occursBackend, Bool.or_eq_false_iff] at h
      simp only [splitFuel, h.1, Bool.false_eq_true, if_false]
      rw [ih rest h.2]

theorem splitFuel_two_le :
    ∀ (n : Nat) (l : List Char), l.length ≤ n → occursBackend l = true →
      2 ≤ (splitFuel n l).length := by
  intro n
  induction n with
  | zero =>
    intro l hl ho
    have : l = [] := List.eq_nil_of_length_eq_zero (Nat.le_zero.mp hl)
    subst this
    simp [occursBackend] at ho
  | succ n ih =>
    intro l hl ho
    cases l with
    | nil => simp [occursBackend] at ho
    | cons c rest =>
      simp only [List.length_cons, Nat.succ_le_succ_iff] at hl
      simp only [splitFuel]
      cases hps : backendSep.isPrefixOf (c :: rest)
      · have ho' : occursBackend rest = true := by
          simpa [occursBackend, hps] using ho
        have h2 := ih rest hl ho'
        cases h' : splitFuel n rest with
        | nil => exact absurd h' (splitFuel_ne_nil n rest)
        | cons chunk more =>
          rw [h'] at h2
          simp only [Bool.false_eq_true, if_false, List.length_cons] at h2 ⊢
          omega
      · simp only [if_true, List.length_cons]
        have h1 : splitFuel n (rest.drop 7) ≠ [] := splitFuel_ne_nil n (rest.drop 7)
        have : 0 < (splitFuel n (rest.drop 7)).length := List.length_pos.mpr h1
        omega

theorem getLastD_congr (l : List (List Char)) (h : l ≠ []) (a b : List Char) :
    l.getLastD a = l.getLastD b := by
  cases l with
  | nil => exact absurd rfl h
  | cons x xs => rw [List.getLastD_cons, List.getLastD_cons]

theorem noSelfOverlap :
    ∀ k, k < 8 → k ≠ 0 → backendSep.drop k ≠ backendSep.take (backendSep.length - k) := by
  decide

theorem sepLen : backendSep.length = 8 := rfl

theorem splitFuel_cons_sep (n : Nat) (m : List Char) :
    splitFuel (n + 1) (backendSep ++ m) = [] :: splitFuel n m := by
  rw [show backendSep ++ m = 'b' :: 'a' :: 'c' :: 'k' :: 'e' :: 'n' :: 'd' :: '/' :: m from rfl]
  have hpr : backendSep.isPrefixOf
      ('b' :: 'a' :: 'c' :: 'k' :: 'e' :: 'n' :: 'd' :: '/' :: m) = true :=
    isPrefixOf_append_self backendSep m
  simp only [splitFuel, hpr, if_true]
  rw [show ('a' :: 'c' :: 'k' :: 'e' :: 'n' :: 'd' :: '/' :: m).drop 7 = m from rfl]

theorem split_last :
    ∀ (n : Nat) (p t : List Char),
      (p ++ backendSep ++ t).length ≤ n → occursBackend t = false →
      (splitFuel n (p ++ backendSep ++ t)).getLastD [] = t := by
  intro n
  induction n with
  | zero =>
    intro p t hl _
    exfalso
    simp only [List.length_append, sepLen] at hl
    omega
  | succ n ih =>
    intro p t hl ho
    cases p with
    | nil =>
      simp only [List.nil_append] at hl ⊢
      rw [splitFuel_cons_sep, List.getLastD_cons, splitFuel_no_occur n t ho,
        List.getLastD_cons]
      rfl
    | cons c p' =>
      have hl' : (p' ++ backendSep ++ t).length ≤ n := by
        simp only [List.cons_append, List.length_append, List.length_cons, sepLen] at hl ⊢
        omega
      simp only [List.cons_append]
      cases hps : backendSep.isPrefixOf (c :: (p' ++ backendSep ++ t))
      · simp only [splitFuel, hps, Bool.false_eq_true, if_false]
        have ho2 := occursBackend_sep p' t
        have h2 := splitFuel_two_le n _ hl' ho2
        cases hsp : splitFuel n (p' ++ backendSep ++ t) with
        | nil => exact absurd hsp (splitFuel_ne_nil _ _)
        | cons chunk more =>
          rw [hsp] at h2
          have hm : more ≠ [] := by
            simp only [List.length_cons] at h2
            exact List.length_pos.mp (by omega)
          have ihh := ih p' t hl' ho
          rw [hsp, List.getLastD_cons] at ihh
          show (((c :: chunk) :: more).getLastD []) = t
          rw [List.getLastD_cons, getLastD_congr more hm (c :: chunk) chunk]
          exact ihh
      · by_cases hp8 : backendSep.isPrefixOf (c :: p') = true
        · have htake := isPrefixOf_take backendSep (c :: p') hp8
          have hdecomp : c :: p' = backendSep ++ (c :: p').drop backendSep.length := by
            conv_lhs => rw [← List.take_append_drop backendSep.length (c :: p')]
            rw [htake]
          have hlist : c :: (p' ++ backendSep ++ t) =
              backendSep ++ ((c :: p').drop backendSep.length ++ backendSep ++ t) := by
            calc c :: (p' ++ backendSep ++ t)
                = (c :: p') ++ (backendSep ++ t) := by simp [List.append_assoc]
              _ = (backendSep ++ (c :: p').drop backendSep.length) ++ (backendSep ++ t) := by
                  rw [← hdecomp]
              _ = backendSep ++ ((c :: p').drop backendSep.length ++ backendSep ++ t) := by
                  simp [List.append_assoc]
          have hlen : ((c :: p').drop backendSep.length ++ backendSep ++ t).length ≤ n := by
            have hplen := congrArg List.length hdecomp
            simp only [List.length_append, List.length_cons, List.length_drop, sepLen]
              at hplen hl ⊢
            omega
          rw [hlist, splitFuel_cons_sep, List.getLastD_cons]
          exact ih _ t hlen ho
        · exfalso
          have htake := isPrefixOf_take backendSep _ hps
          have hsplit : c :: (p' ++ backendSep ++ t) = (c :: p') ++ (backendSep ++ t) := by
            simp [List.append_assoc]
          rw [hsplit, List.take_append_eq_append_take] at htake
          by_cases hk : backendSep.length ≤ (c :: p').length
          · rw [Nat.sub_eq_zero_of_le hk] at htake
            simp only [List.take_zero, List.append_nil] at htake
            exact hp8 (take_isPrefixOf backendSep (c :: p') htake)
          · push_neg at hk
            have h1 : (c :: p').take backendSep.length = c :: p' :=
              List.take_of_length_le (le_of_lt hk)
            rw [h1] at htake
            have h2 : (backendSep ++ t).take (backendSep.length - (c :: p').length) =
                backendSep.take (backendSep.length - (c :: p').length) := by
              rw [List.take_append_eq_append_take,
                Nat.sub_eq_zero_of_le (Nat.sub_le _ _)]
              simp
            rw [h2] at htake
            have h3 := congrArg (List.drop (c :: p').length) htake
            rw [List.drop_append_eq_append_drop, List.drop_length] at h3
            simp only [Nat.sub_self, List.drop_zero, List.nil_append] at h3
            exact noSelfOverlap (c :: p').length hk (by simp) h3.symm

theorem short_path_no_occur (path : String) (h : occursBackend path.data = false) :
    short_path path = path := by
  unfold short_path splitOnBackend
  rw [splitFuel_no_occur _ _ h, List.getLastD_cons]
  rfl

theorem short_path_last (pre post : String) (h : occursBackend post.data = false) :
    short_path (pre ++ "backend/" ++ post) = post := by
  unfold short_path splitOnBackend
  have hdata : (pre ++ "backend/" ++ post).data = pre.data ++ backendSep ++ post.data := by
    rw [String.data_append, String.data_append]
    rfl
  rw [hdata,
    split_last ((pre.data ++ backendSep ++ post.data).length) pre.data post.data le_rfl h]

theorem failed_files_eraseL :
    ∀ (d1 d2 : List (String × FileCov)),
      d1.map (fun p => (p.1, eraseL p.2)) = d2.map (fun p => (p.1, eraseL p.2)) →
      failed_files d1 = failed_files d2 := by
  intro d1
  induction d1 with
  | nil =>
    intro d2 h
    cases d2 with
    | nil => rfl
    | cons b bs => simp at h
  | cons a as ih =>
    intro d2 h
    cases d2 with
    | nil => simp at h
    | cons b bs =>
      simp only [List.map_cons, List.cons.injEq, Prod.mk.injEq] at h
      obtain ⟨⟨h1, h2⟩, htail⟩ := h
      have hperf : is_perfect a.2 = is_perfect b.2 := by
        have he : is_perfect (eraseL a.2) = is_perfect (eraseL b.2) := by rw [h2]
        exact he
      have hline : fileLine a.1 a.2 = fileLine b.1 b.2 := by
        have he : fileLine a.1 (eraseL a.2) = fileLine b.1 (eraseL b.2) := by rw [h1, h2]
        exact he
      have ihh := ih bs htail
      rw [failed_files_eq, failed_files_eq] at ihh
      rw [failed_files_eq, failed_files_eq]
      simp only [List.filter_cons]
      rw [← hperf]
      cases hp : is_perfect a.2 <;> simp [hp, hline, ihh]

theorem evalRecord_error (r : FileRecord) (h : badRecord r) :
    ∃ e, evalRecord r = Except.error e := by
  rcases h with hs | hb | hf
  · exact ⟨_, by unfold evalRecord; rw [hs]; rfl⟩
  · cases hsv : r.s with
    | none => exact ⟨_, by unfold evalRecord; rw [hsv]; rfl⟩
    | some sv => exact ⟨_, by unfold evalRecord; rw [hsv, hb]; rfl⟩
  · cases hsv : r.s with
    | none => exact ⟨_, by unfold evalRecord; rw [hsv]; rfl⟩
    | some sv =>
      cases hbv : r.b with
      | none => exact ⟨_, by unfold evalRecord; rw [hsv, hbv]; rfl⟩
      | some bv => exact ⟨_, by unfold evalRecord; rw [hsv, hbv, hf]; rfl⟩

theorem processFiles_error :
    ∀ (data : List (String × FileRecord)), (∃ p ∈ data, badRecord p.2) →
      ∃ e, processFiles data = Except.error e := by
  intro data
  induction data with
  | nil => rintro ⟨p, hp, _⟩; cases hp
  | cons a as ih =>
    rintro ⟨p, hp, hbad⟩
    rcases List.mem_cons.mp hp with rfl | hmem
    · obtain ⟨e, he⟩ := evalRecord_error p.2 hbad
      exact ⟨e, by simp only [processFiles]; rw [he]; rfl⟩
    · cases hev : evalRecord a.2 with
      | error e => exact ⟨e, by simp only [processFiles]; rw [hev]; rfl⟩
      | ok cov =>
        obtain ⟨e, he⟩ := ih ⟨p, hmem, hbad⟩
        refine ⟨e, ?_⟩
        simp only [processFiles]
        rw [hev]
        show (processFiles as).bind (fun covs => Except.ok ((a.1, cov) :: covs)) = Except.error e
        rw [he]
        rfl

/-! ### The claims -/

/-- C1: for every well-formed coverage report in which at least one statement
count, branch-arm count, or function count equals 0, the checker prints the
header `"Files with < 100% coverage:"` followed by exactly one line per
deficient file (and no line for any non-deficient file), and exits with
status 1. -/
theorem C1_deficient_reports_fail (data : List (String × FileCov))
    (_hwf : ∀ p ∈ data, wfCov p.2) (hz : ∃ p ∈ data, hasZero p.2) :
    check_coverage data =
      ("Files with < 100% coverage:" ::
        ((data.filter fun p => !is_perfect p.2).map fun p => fileLine p.1 p.2), 1) := by
  obtain ⟨p, hp, hzp⟩ := hz
  have hnp : is_perfect p.2 = false := hasZero_not_perfect p.2 hzp
  have hmem : p ∈ data.filter fun q => !is_perfect q.2 :=
    List.mem_filter.mpr ⟨hp, by simp [hnp]⟩
  have hne : failed_files data ≠ [] := by
    rw [failed_files_eq]
    intro hcontra
    rw [List.map_eq_nil_iff] at hcontra
    rw [hcontra] at hmem
    cases hmem
  unfold check_coverage
  rw [if_neg hne, failed_files_eq]

/-- Witness for C1 at a concrete report with one uncovered statement. -/
theorem C1_witness :
    (∀ p ∈ [("src/app.js", (⟨[("0", 1), ("1", 0)], [], [("0", 1)], []⟩ : FileCov))],
      wfCov p.2) ∧
    (∃ p ∈ [("src/app.js", (⟨[("0", 1), ("1", 0)], [], [("0", 1)], []⟩ : FileCov))],
      hasZero p.2) ∧
    check_coverage [("src/app.js", (⟨[("0", 1), ("1", 0)], [], [("0", 1)], []⟩ : FileCov))] =
      ("Files with < 100% coverage:" ::
        (([("src/app.js", (⟨[("0", 1), ("1", 0)], [], [("0", 1)], []⟩ : FileCov))].filter
            fun p => !is_perfect p.2).map fun p => fileLine p.1 p.2), 1) :=
  ⟨by decide, by decide, C1_deficient_reports_fail _ (by decide) (by decide)⟩

/-- C2: for every well-formed report in which every statement, branch-arm and
function count is strictly positive (or the category is empty), the checker
prints exactly `"All files have 100% coverage!"` and exits with status 0. -/
theorem C2_perfect_reports_pass (data : List (String × FileCov))
    (hpos : ∀ p ∈ data, allPositive p.2) :
    check_coverage data = (["All files have 100% coverage!"], 0) := by
  have hnil : failed_files data = [] := by
    rw [failed_files_eq]
    have hfe : data.filter (fun p => !is_perfect p.2) = [] :=
      List.filter_eq_nil_iff.mpr fun p hp => by
        simp [allPositive_perfect p.2 (hpos p hp)]
    rw [hfe]
    rfl
  unfold check_coverage
  rw [if_pos hnil]

/-- Witness for C2 at a concrete fully covered report (whose unused `l`
metric even contains a zero count). -/
theorem C2_witness :
    (∀ p ∈ [("a.js", (⟨[("0", 1), ("1", 2)], [("0", [1, 3])], [("0", 5)],
        [("0", 0)]⟩ : FileCov))], allPositive p.2) ∧
    check_coverage [("a.js", (⟨[("0", 1), ("1", 2)], [("0", [1, 3])], [("0", 5)],
        [("0", 0)]⟩ : FileCov))] = (["All files have 100% coverage!"], 0) :=
  ⟨by decide, C2_perfect_reports_pass _ (by decide)⟩

/-- C3: when the coverage report file does not exist, the checker prints
exactly `"Coverage file not found."` and returns with exit status 0,
performing no coverage evaluation. -/
theorem C3_missing_file_soft_success :
    run ReportState.missing = Except.ok (["Coverage file not found."], 0) := rfl

/-- C4 (counterexample): on `"a/backend/b/backend/x.js"` the code displays
`"x.js"` (the suffix after the LAST `backend/`), not `"b/backend/x.js"`
(the suffix after the FIRST `backend/`) demanded by the claim. -/
theorem C4_counterexample :
    short_path "a/backend/b/backend/x.js" = "x.js" ∧
    short_path "a/backend/b/backend/x.js" ≠ "b/backend/x.js" := by
  constructor
  · decide
  · decide

/-- C4 (amended): the display path is the original path with everything up
to and including the LAST occurrence of `backend/` removed; a path not
containing that substring is shown unchanged. -/
theorem C4_strip_last_occurrence :
    (∀ path : String, occursBackend path.data = false → short_path path = path) ∧
    (∀ pre post : String, occursBackend post.data = false →
      short_path (pre ++ "backend/" ++ post) = post) :=
  ⟨short_path_no_occur, short_path_last⟩

/-- Witness for C4 (amended) at concrete paths with and without the
separator. -/
theorem C4_witness :
    occursBackend "x.js".data = false ∧ occursBackend "lib/main.js".data = false ∧
    short_path ("src/" ++ "backend/" ++ "x.js") = "x.js" ∧
    short_path "lib/main.js" = "lib/main.js" :=
  ⟨by decide, by decide, C4_strip_last_occurrence.2 "src/" "x.js" (by decide),
    C4_strip_last_occurrence.1 "lib/main.js" (by decide)⟩

/-- C5: a category with zero total units never marks its file deficient and
never contributes a label, even when the other categories are deficient. -/
theorem C5_empty_category_vacuous (cov : FileCov) :
    (s_total cov = 0 → sDeficient cov = false ∧
      fileDetails cov = (if bDeficient cov then [bLabel cov] else []) ++
        (if fDeficient cov then [fLabel cov] else []) ∧
      is_perfect cov = (!bDeficient cov && !fDeficient cov)) ∧
    (b_total cov = 0 → bDeficient cov = false ∧
      fileDetails cov = (if sDeficient cov then [sLabel cov] else []) ++
        (if fDeficient cov then [fLabel cov] else []) ∧
      is_perfect cov = (!sDeficient cov && !fDeficient cov)) ∧
    (f_total cov = 0 → fDeficient cov = false ∧
      fileDetails cov = (if sDeficient cov then [sLabel cov] else []) ++
        (if bDeficient cov then [bLabel cov] else []) ∧
      is_perfect cov = (!sDeficient cov && !bDeficient cov)) := by
  refine ⟨fun hs => ?_, fun hb => ?_, fun hf => ?_⟩
  · have hd : sDeficient cov = false := by simp [sDeficient, hs]
    exact ⟨hd, by rw [details_eq, hd]; simp, by simp [is_perfect, hd]⟩
  · have hd : bDeficient cov = false := by simp [bDeficient, hb]
    exact ⟨hd, by rw [details_eq, hd]; simp, by simp [is_perfect, hd]⟩
  · have hd : fDeficient cov = false := by simp [fDeficient, hf]
    exact ⟨hd, by rw [details_eq, hd]; simp, by simp [is_perfect, hd]⟩

/-- Witness for C5 at the record with all categories empty. -/
theorem C5_witness :
    s_total emptyCov = 0 ∧ b_total emptyCov = 0 ∧ f_total emptyCov = 0 ∧
    (sDeficient emptyCov = false ∧
      fileDetails emptyCov = (if bDeficient emptyCov then [bLabel emptyCov] else []) ++
        (if fDeficient emptyCov then [fLabel emptyCov] else []) ∧
      is_perfect emptyCov = (!bDeficient emptyCov && !fDeficient emptyCov)) ∧
    (bDeficient emptyCov = false ∧
      fileDetails emptyCov = (if sDeficient emptyCov then [sLabel emptyCov] else []) ++
        (if fDeficient emptyCov then [fLabel emptyCov] else []) ∧
      is_perfect emptyCov = (!sDeficient emptyCov && !fDeficient emptyCov)) ∧
    (fDeficient emptyCov = false ∧
      fileDetails emptyCov = (if sDeficient emptyCov then [sLabel emptyCov] else []) ++
        (if bDeficient emptyCov then [bLabel emptyCov] else []) ∧
      is_perfect emptyCov = (!sDeficient emptyCov && !bDeficient emptyCov)) :=
  ⟨rfl, rfl, rfl,
    (C5_empty_category_vacuous emptyCov).1 rfl,
    (C5_empty_category_vacuous emptyCov).2.1 rfl,
    (C5_empty_category_vacuous emptyCov).2.2 rfl⟩

/-- C6: two reports identical except for the contents of the `l` (lines)
metric produce identical output and identical exit status. -/
theorem C6_lines_metric_irrelevant (d1 d2 : List (String × FileCov))
    (h : d1.map (fun p => (p.1, eraseL p.2)) = d2.map (fun p => (p.1, eraseL p.2))) :
    check_coverage d1 = check_coverage d2 := by
  unfold check_coverage
  rw [failed_files_eraseL d1 d2 h]

/-- Witness for C6 at two concrete reports differing only in `l`. -/
theorem C6_witness :
    [("a.js", (⟨[("0", 1)], [], [("0", 1)], [("1", 0)]⟩ : FileCov))].map
        (fun p => (p.1, eraseL p.2)) =
      [("a.js", (⟨[("0", 1)], [], [("0", 1)], []⟩ : FileCov))].map
        (fun p => (p.1, eraseL p.2)) ∧
    check_coverage [("a.js", (⟨[("0", 1)], [], [("0", 1)], [("1", 0)]⟩ : FileCov))] =
      check_coverage [("a.js", (⟨[("0", 1)], [], [("0", 1)], []⟩ : FileCov))] :=
  ⟨by decide, C6_lines_metric_irrelevant _ _ (by decide)⟩

/-- C7: `b_total` is the sum over all branch groups of the number of arms in
the group, and `b_covered` is the number of arms across all groups whose hit
count is strictly positive. -/
theorem C7_branch_totals (cov : FileCov) :
    b_total cov = (cov.b.map fun g => g.2.length).sum ∧
    b_covered cov =
      (((cov.b.map Prod.snd).flatten).filter fun c => decide (0 < c)).length := by
  constructor
  · unfold b_total
    rw [foldl_bAccum]
    simp
  · exact b_covered_eq cov

/-- C8: a deficient file's line is the display path followed by one
`"<CategoryName>: <covered>/<total>"` label per deficient category, in the
fixed order Statements, Branches, Functions, each present only when its
category is deficient. -/
theorem C8_label_format (path : String) (cov : FileCov) :
    fileLine path cov =
      short_path path ++ ": " ++ String.intercalate ", " (fileDetails cov) ∧
    fileDetails cov =
      (if sDeficient cov then [sLabel cov] else []) ++
      (if bDeficient cov then [bLabel cov] else []) ++
      (if fDeficient cov then [fLabel cov] else []) ∧
    sLabel cov = "Statements: " ++ toString (s_covered cov) ++ "/" ++ toString (s_total cov) ∧
    bLabel cov = "Branches: " ++ toString (b_covered cov) ++ "/" ++ toString (b_total cov) ∧
    fLabel cov = "Functions: " ++ toString (f_covered cov) ++ "/" ++ toString (f_total cov) :=
  ⟨rfl, details_eq cov, rfl, rfl, rfl⟩

/-- C9: only the file-not-found condition is caught; invalid JSON or a file
record lacking one of the `s`, `b`, `f` keys propagates as an uncaught
exception (a non-zero process exit) instead of any coverage verdict. -/
theorem C9_only_missing_file_caught :
    (∀ msg, ∃ e, run (ReportState.invalidJson msg) = Except.error e) ∧
    (∀ data, (∃ p ∈ data, badRecord p.2) →
      ∃ e, run (ReportState.parsed data) = Except.error e) := by
  constructor
  · intro msg
    exact ⟨_, rfl⟩
  · intro data hbad
    obtain ⟨e, he⟩ := processFiles_error data hbad
    refine ⟨e, ?_⟩
    show (processFiles data).bind (fun covs => Except.ok (check_coverage covs)) =
      Except.error e
    rw [he]
    rfl

/-- Witness for C9 at a concrete malformed report and a record missing `s`. -/
theorem C9_witness :
    (∃ e, run (ReportState.invalidJson "Expecting value") = Except.error e) ∧
    (∃ p ∈ [("a.js", (⟨none, some [], some [], none⟩ : FileRecord))], badRecord p.2) ∧
    (∃ e, run (ReportState.parsed
      [("a.js", (⟨none, some [], some [], none⟩ : FileRecord))]) = Except.error e) :=
  ⟨C9_only_missing_file_caught.1 "Expecting value", by decide,
    C9_only_missing_file_caught.2 _ (by decide)⟩

/-- C10: in every category the computed covered count never exceeds the
total, and whenever a label is displayed (the category is deficient) the
covered count is strictly below the total. -/
theorem C10_covered_le_total (cov : FileCov) :
    s_covered cov ≤ s_total cov ∧ b_covered cov ≤ b_total cov ∧
    f_covered cov ≤ f_total cov ∧
    (sDeficient cov = true → s_covered cov < s_total cov) ∧
    (bDeficient cov = true → b_covered cov < b_total cov) ∧
    (fDeficient cov = true → f_covered cov < f_total cov) := by
  refine ⟨covered_count_le cov.s, ?_, covered_count_le cov.f, ?_, ?_, ?_⟩
  · rw [b_total_eq, b_covered_eq]
    exact List.length_filter_le _ _
  · intro h
    simp only [sDeficient, Bool.and_eq_true, decide_eq_true_eq] at h
    exact h.2
  · intro h
    simp only [bDeficient, Bool.and_eq_true, decide_eq_true_eq] at h
    exact h.2
  · intro h
    simp only [fDeficient, Bool.and_eq_true, decide_eq_true_eq] at h
    exact h.2

/-- Witness for C10 at a record deficient in all three categories. -/
theorem C10_witness :
    sDeficient allZeroCov = true ∧ bDeficient allZeroCov = true ∧
    fDeficient allZeroCov = true ∧
    s_covered allZeroCov < s_total allZeroCov ∧
    b_covered allZeroCov < b_total allZeroCov ∧
    f_covered allZeroCov < f_total allZeroCov :=
  ⟨by decide, by decide, by decide,
    (C10_covered_le_total allZeroCov).2.2.2.1 (by decide),
    (C10_covered_le_total allZeroCov).2.2.2.2.1 (by decide),
    (C10_covered_le_total allZeroCov).2.2.2.2.2 (by decide)⟩

end CheckCoverageJson
